import Mathlib

/-!
Verification of the rust-query repository: a shallow embedding of the
query-compilation and schema-migration engine (src/ast.rs, src/value.rs,
src/migrate.rs) with proofs about the embedded definitions.
-/

namespace RustQuery

/-! ## Alias allocator (value.rs, `MyAlias`)

`MyAlias::new` reads a process-global `AtomicU64` with `fetch_add(1, Relaxed)`
(value.rs:166-172): the call returns the previous counter value and stores the
successor; an `AtomicU64` wraps around on overflow, so the stored counter is
always reduced modulo 2^64.  We model the counter state explicitly: `new`
takes the current counter and returns the allocated value together with the
new counter. -/

def U64_SIZE : Nat := 2 ^ 64

/-- Model of `MyAlias::new` (value.rs:167-171): `IDEN_NUM.fetch_add(1, Relaxed)`
returns the old counter value; the new stored value wraps modulo 2^64. -/
def MyAlias.new (ctr : Nat) : Nat × Nat :=
  (ctr, (ctr + 1) % U64_SIZE)

/-- The counter stored in `IDEN_NUM` after `n` calls to `MyAlias::new`,
starting from the initializer `AtomicU64::new(0)` (value.rs:168). -/
def counterAfter : Nat → Nat
  | 0 => 0
  | n + 1 => (MyAlias.new (counterAfter n)).2

/-- The alias value returned by the `n`-th call (0-indexed) to `MyAlias::new`
in the process. -/
def aliasAt (n : Nat) : Nat := (MyAlias.new (counterAfter n)).1

/-! ## value.rs: the join cache (`Db::deref`, value.rs:292-316)

`Db<T>` for a foreign-key column dereferences to the target table's accessor.
The plan keeps, per scope, an append-only list `joined : FrozenVec<Box<(Field,
MyTable)>>`; `deref` looks the field up in that list and, on a miss, pushes a
new `MyTable` entry holding a fresh table alias and its own empty nested join
list.  `Field` and the value.rs `MyTable` are modelled structurally. -/

namespace Value

/-- Model of `Field` (value.rs:147-150): either a generated column alias or a
static column name.  `PartialEq` on the Rust side is structural equality. -/
inductive Field where
  | u64 (a : Nat)
  | str (name : String)
deriving DecidableEq

/-- Model of the value.rs `MyTable` (the joined-table entry): its table name,
id column name, the fresh table alias, and its own nested join list
(`Joins { table, joined }`). -/
inductive MyTable where
  | mk (name : String) (id : String) (tableAlias : Nat)
      (joined : List (Field × MyTable))

/-- The `T::NAME` / `T::ID` constants of a `HasId` table
(lib.rs-equivalent trait constants used by `Db::deref`). -/
structure TableInfo where
  NAME : String
  ID : String

/-- The find step of `Db::deref` (value.rs:299):
`joined.iter().find(|item| item.0 == name)`. -/
def lookupJoin (joined : List (Field × MyTable)) (name : Field) :
    Option (Field × MyTable) :=
  joined.find? (fun item => decide (item.1 = name))

/-- Model of the body of `Db::deref`'s `get_or_init` closure (value.rs:296-314):
look the field up in the plan's join list; on a miss, push a new `MyTable`
with a fresh alias and an empty nested join list (`push_get` appends at the
end of the `FrozenVec`).  Returns the (possibly extended) join list, the
table entry found or created, and the new alias counter. -/
def derefStep (T : TableInfo) (name : Field)
    (joined : List (Field × MyTable)) (ctr : Nat) :
    List (Field × MyTable) × MyTable × Nat :=
  match lookupJoin joined name with
  | some item => (joined, item.2, ctr)
  | none =>
    let fresh := MyAlias.new ctr
    let table : MyTable := MyTable.mk T.NAME T.ID fresh.1 []
    (joined ++ [(name, table)], table, fresh.2)

/-- The table entry produced by the first resolution of `name`. -/
def firstTable (T : TableInfo) (name : Field)
    (joined : List (Field × MyTable)) (ctr : Nat) : MyTable :=
  (derefStep T name joined ctr).2.1

/-- Iterate `n` dereferences of the same field, threading the join list and
the alias counter. -/
def derefN (T : TableInfo) (name : Field) :
    Nat → List (Field × MyTable) × Nat → List (Field × MyTable) × Nat
  | 0, st => st
  | n + 1, st =>
    let r := derefStep T name st.1 st.2
    derefN T name n (r.1, r.2.2)

/-- The sequence of table entries returned by `n` successive dereferences of
the same field. -/
def derefResults (T : TableInfo) (name : Field) :
    Nat → List (Field × MyTable) × Nat → List MyTable
  | 0, _ => []
  | n + 1, st =>
    let r := derefStep T name st.1 st.2
    r.2.1 :: derefResults T name n (r.1, r.2.2)

end Value

/-! ## value.rs: the expression algebra and its construction-time checks

Expression nodes (value.rs:15-132) are combined through the `Value` trait.
The construction-time checks of the Rust code are its trait bounds; we embed
the node shapes as a deep syntax `ExprNode` with the semantic type tag
(`Value::Typ`) of every node, and a predicate `wf` holding exactly when the
trait bounds of the corresponding constructor are satisfied:

  * `Value::add<T: Value>` (value.rs:19-21): no relation between operand tags;
  * `Value::lt(rhs: i32)` (value.rs:23-25): right-hand side is an i32 constant;
  * `Value::eq<T: Value>` (value.rs:27-29): the only bound is `T: Value<'t>`,
    no relation between the operand type tags is required;
  * `Value::not` (value.rs:31-33);
  * `ValueOpt::unwrap_or<T: Value<'t, Typ = Self::Inner>>` (value.rs:39-41):
    requires the left operand tag to be `Option` of the right operand tag. -/

/-- Semantic type tags of the expression algebra (`Value::Typ`), covering the
`MyIdenT` instances of value.rs:244-262 (i64, f64, bool, String, Option,
and `HasId` table row types). -/
inductive Ty where
  | i64
  | f64
  | boolean
  | str
  | opt (t : Ty)
  | table (name : String)
deriving DecidableEq

/-- Deep embedding of the expression node shapes of value.rs: `Db` column
references, `Const`, `MyAdd`, `MyNot`, `MyLt`, `MyEq`, `UnwrapOr`. -/
inductive ExprNode where
  | db (tableAlias : Nat) (col : String) (t : Ty)
  | const (t : Ty)
  | myAdd (a b : ExprNode)
  | myNot (a : ExprNode)
  | myLt (a : ExprNode) (rhs : Int)
  | myEq (a b : ExprNode)
  | unwrapOr (a b : ExprNode)
deriving DecidableEq

/-- The semantic type tag of a node, from the `Value` impls of value.rs:
`MyAdd` has `Typ = A::Typ` (value.rs:66-71), `MyNot` has `Typ = T::Typ`
(value.rs:76-81), `MyLt` and `MyEq` have `Typ = bool` (value.rs:86-101),
`UnwrapOr` has the inner type of the optional, which equals the tag of the
default operand (value.rs:125-132). -/
def ExprNode.typ : ExprNode → Ty
  | .db _ _ t => t
  | .const t => t
  | .myAdd a _ => a.typ
  | .myNot a => a.typ
  | .myLt _ _ => .boolean
  | .myEq _ _ => .boolean
  | .unwrapOr _ b => b.typ

/-- The construction-time checks of the expression algebra: a node is
well-formed iff the trait bounds of the Rust constructors are satisfied.
`MyEq` (value.rs:27-29, 94-101) only requires both operands to be values;
`UnwrapOr` (value.rs:36-42) requires `A: ValueOpt<Inner = B::Typ>`. -/
def ExprNode.wf : ExprNode → Bool
  | .db _ _ _ => true
  | .const _ => true
  | .myAdd a b => a.wf && b.wf
  | .myNot a => a.wf
  | .myLt a _ => a.wf
  | .myEq a b => a.wf && b.wf
  | .unwrapOr a b => a.wf && b.wf && (a.typ == Ty.opt b.typ)

/-! ## migrate.rs: `Prepare::open_internal` and the process-global flag

`static ALLOWED: AtomicBool = AtomicBool::new(true)` (migrate.rs:299);
`open_internal` runs `assert!(ALLOWED.swap(false, Relaxed))`
(migrate.rs:330-345): `swap` stores `false` and returns the previous value,
and the assertion panics when that previous value is already `false`.
We model the flag as explicit state and a panic as `none`. -/

/-- The connection manager selected by `Prepare::open` (file-backed) or
`Prepare::open_in_memory` (migrate.rs:319-328). -/
inductive Manager where
  | file (path : String)
  | memory
deriving DecidableEq

/-- Initial value of the `ALLOWED` flag (migrate.rs:299). -/
def ALLOWED_init : Bool := true

/-- Model of `Prepare::open_internal` (migrate.rs:330-345): takes the current
value of the process-global `ALLOWED` flag; the flag is always cleared, and
the call panics (`none`) unless the flag was previously set.  On success it
returns the prepared connection and the new flag value. -/
def Prepare.open_internal (manager : Manager) (allowed : Bool) :
    Option (Manager × Bool) :=
  let prev := allowed
  if prev then some (manager, false) else none

/-! ## ast.rs: the Select Plan and its compilation to a SELECT statement

`MySelect` (ast.rs:8-20) owns the join sources, the filter conjuncts, the
grouping keys, the aggregate projections and the sort keys;
`MySelect::into_select` (ast.rs:37-91) compiles it to one sea_query
`SelectStatement`.  The `SimpleExpr` payloads stored in the plan are opaque
to the compiler and embedded as identifiers.  The process-global alias
counter is threaded explicitly, and the compiler additionally returns the
sequence of table/lateral aliases it allocated (one per Table/NestedPlan
source, in allocation order). -/

namespace Ast

/-- Opaque sea_query scalar expression stored in a plan. -/
abbrev SimpleExpr := Nat

/-- Model of the ast.rs `MyTable` (ast.rs:22-25): a physical table name and
its referenced columns, each with its generated column alias. -/
structure MyTable where
  table : String
  columns : List (String × Nat)
deriving DecidableEq

mutual
/-- Model of `MySelect` (ast.rs:8-20): sources, filters, grouping keys,
aggregates and sort keys. -/
inductive MySelect where
  | mk (sources : List Source) (filters : List SimpleExpr)
      (group : List (Nat × SimpleExpr)) (aggr : List (Nat × SimpleExpr))
      (sort : List (Nat × SimpleExpr))

/-- Model of `Source` (ast.rs:32-35): a nested sub-plan or a physical
table. -/
inductive Source where
  | select (s : MySelect)
  | table (t : MyTable)
end

/-- sea_query join kinds used by the embedding; into_select only ever emits
`InnerJoin` (ast.rs:44, 54). -/
inductive JoinType where
  | innerJoin
  | leftJoin
deriving DecidableEq

/-- Model of the sea_query `Condition` values used here: `Condition::any()`
is a disjunction of sub-conditions. -/
inductive Cond where
  | any (children : List SimpleExpr)
deriving DecidableEq

/-- Rendering semantics of a condition under a row valuation: sea_query
renders an `any` condition with no children as TRUE; otherwise it is the OR
of its children. -/
def Cond.eval (env : SimpleExpr → Bool) : Cond → Bool
  | .any [] => true
  | .any (c :: cs) => (c :: cs).any env

/-- sea_query ORDER BY directions; into_select only ever emits `Asc`
(ast.rs:77, 86). -/
inductive Order where
  | asc
  | desc
deriving DecidableEq

/-- A projected select expression: a column reference
`Expr::col((table_alias, column))` (ast.rs:62) or one of the plan's stored
expressions. -/
inductive PExpr where
  | col (tableAlias : Nat) (column : String)
  | expr (e : SimpleExpr)
deriving DecidableEq

mutual
/-- Model of the sea_query `SelectStatement` as built by into_select: the
join list, the projections with their output aliases (`expr_as`), the ANDed
WHERE conjuncts (`and_where`), the GROUP BY columns (`group_by_col`) and the
ORDER BY list (`order_by`). -/
inductive SelectStatement where
  | mk (joins : List JoinEntry) (selects : List (PExpr × Nat))
      (whereAnd : List SimpleExpr) (groupBy : List Nat)
      (orderBy : List (Nat × Order))

/-- A join emitted by into_select: `join_as` on a table reference
(ast.rs:53-58) or `join_lateral` on a recursively built sub-select
(ast.rs:43-48); both carry the join type, the alias and the join
condition. -/
inductive JoinEntry where
  | tbl (jt : JoinType) (name : String) (al : Nat) (cond : Cond)
  | lateral (jt : JoinType) (sub : SelectStatement) (al : Nat) (cond : Cond)
end

def SelectStatement.joins : SelectStatement → List JoinEntry
  | .mk js _ _ _ _ => js

def SelectStatement.selects : SelectStatement → List (PExpr × Nat)
  | .mk _ ss _ _ _ => ss

def SelectStatement.whereAnd : SelectStatement → List SimpleExpr
  | .mk _ _ w _ _ => w

def SelectStatement.groupBy : SelectStatement → List Nat
  | .mk _ _ _ g _ => g

def SelectStatement.orderBy : SelectStatement → List (Nat × Order)
  | .mk _ _ _ _ o => o

mutual
/-- Model of `MySelect::into_select` (ast.rs:37-91): compile the sources,
then AND every filter into WHERE (ast.rs:70-72), then project each grouping
key, GROUP BY it and ORDER BY it ascending (ast.rs:74-78), then project the
aggregates (ast.rs:80-82), then project each sort key and ORDER BY it
ascending (ast.rs:84-87).  Returns the statement, the new alias counter and
the allocated aliases. -/
def MySelect.into_select : MySelect → Nat → SelectStatement × Nat × List Nat
  | .mk sources filters group aggr sort, ctr =>
    let r := intoSources sources ctr
    (SelectStatement.mk r.1
      (r.2.1
        ++ group.map (fun p => (PExpr.expr p.2, p.1))
        ++ aggr.map (fun p => (PExpr.expr p.2, p.1))
        ++ sort.map (fun p => (PExpr.expr p.2, p.1)))
      filters
      (group.map (fun p => p.1))
      (group.map (fun p => (p.1, Order.asc)) ++ sort.map (fun p => (p.1, Order.asc))),
     r.2.2.1, r.2.2.2)

/-- The sources loop of into_select (ast.rs:40-68): a nested plan is
recursively compiled and joined laterally (InnerJoin, `Condition::any()`)
under a fresh alias; a table is joined (InnerJoin, `Condition::any()`) under
a fresh alias and each referenced column is projected under its generated
alias.  Returns the joins, the column projections, the new counter and the
allocated aliases. -/
def intoSources : List Source → Nat →
    List JoinEntry × List (PExpr × Nat) × Nat × List Nat
  | [], ctr => ([], [], ctr, [])
  | Source.select join :: rest, ctr =>
    let rsub := MySelect.into_select join ctr
    let fresh := MyAlias.new rsub.2.1
    let r := intoSources rest fresh.2
    (JoinEntry.lateral JoinType.innerJoin rsub.1 fresh.1 (Cond.any []) :: r.1,
     r.2.1, r.2.2.1, rsub.2.2 ++ fresh.1 :: r.2.2.2)
  | Source.table t :: rest, ctr =>
    let fresh := MyAlias.new ctr
    let r := intoSources rest fresh.2
    (JoinEntry.tbl JoinType.innerJoin t.table fresh.1 (Cond.any []) :: r.1,
     t.columns.map (fun p => (PExpr.col fresh.1 p.1, p.2)) ++ r.2.1,
     r.2.2.1, fresh.1 :: r.2.2.2)
end

/-- Spec §4.1 (a)-(b), written from the spec's words: relates a source list
(with the alias counter at hand) to the joins and projections the compiler
must emit.  Each Table source becomes an inner join under a fresh alias with
each of its referenced columns projected under its generated alias; each
nested-plan source is recursively compiled and joined as a lateral inner
join whose condition is the always-true empty any-condition. -/
inductive SourcesSpec : List Source → Nat →
    List JoinEntry → List (PExpr × Nat) → Nat → Prop where
  | nil (c : Nat) : SourcesSpec [] c [] [] c
  | table (t : MyTable) (rest : List Source) (c : Nat)
      {js : List JoinEntry} {ps : List (PExpr × Nat)} {c' : Nat}
      (h : SourcesSpec rest (MyAlias.new c).2 js ps c') :
      SourcesSpec (Source.table t :: rest) c
        (JoinEntry.tbl JoinType.innerJoin t.table (MyAlias.new c).1 (Cond.any []) :: js)
        (t.columns.map (fun p => (PExpr.col (MyAlias.new c).1 p.1, p.2)) ++ ps)
        c'
  | nested (s : MySelect) (rest : List Source) (c : Nat)
      {js : List JoinEntry} {ps : List (PExpr × Nat)} {c' : Nat}
      (h : SourcesSpec rest (MyAlias.new (MySelect.into_select s c).2.1).2 js ps c') :
      SourcesSpec (Source.select s :: rest) c
        (JoinEntry.lateral JoinType.innerJoin (MySelect.into_select s c).1
          (MyAlias.new (MySelect.into_select s c).2.1).1 (Cond.any []) :: js)
        ps c'

end Ast

/-- The alias values returned by a run of `k` consecutive `MyAlias::new`
calls whose stored counter starts at `c`. -/
def window (c k : Nat) : List Nat :=
  (List.range k).map (fun i => (c + i) % U64_SIZE)

/-! ## migrate.rs: the migration engine

The migration engine works on an SQLite store through one exclusive
transaction.  We model the observable store state: the stamped version
(`PRAGMA user_version`), the DDL change counter (`PRAGMA schema_version`,
used by `Prepare::migrator` as the "newly created database" test,
migrate.rs:393-397), the number of violations `PRAGMA foreign_key_check`
would report, the live schema as read back by `read_schema`, and the table
contents (abstract).  A panic aborts the transaction; we model it as `none`
(nothing is committed). -/

namespace Migrate

/-- Modelled from the spec: the Schema Model of the hash module (hash.rs is
not under src/).  Spec §3: Column = name, SQL scalar type, nullability flag,
optional (target table, target column) foreign key. -/
structure HColumn where
  name : String
  typ : String
  nullable : Bool
  fk : Option (String × String)
deriving DecidableEq

/-- Modelled from the spec: a table of the Schema Model — columns plus
unique constraints (each a set of column names).  The spec gives the
collections order-independent set semantics; the migration claims use the
Schema Model only through a decidable equality test, so collections are
embedded as lists. -/
structure HTable where
  columns : List HColumn
  uniques : List (List String)
deriving DecidableEq

/-- Modelled from the spec: the Schema Model — named tables. -/
structure HSchema where
  tables : List (String × HTable)
deriving DecidableEq

/-- The observable state of the store inside the migration transaction. -/
structure Store where
  userVersion : Int
  schemaVersion : Int
  fkErrors : Nat
  liveSchema : HSchema
  tables : List (String × List (List Int))
deriving DecidableEq

/-- A schema declaration `S: Schema`: its `VERSION` constant (migrate.rs:112)
and the Schema Model built by `TableTypBuilder` from `S::typs`
(migrate.rs:98-109). -/
structure SchemaDecl where
  VERSION : Int
  schema : HSchema
deriving DecidableEq

/-- The typed `Migrator<S>` capability (migrate.rs:420-428), carrying the
version of the schema it is a capability for. -/
structure Migrator where
  expected : Int
deriving DecidableEq

/-- The versioned `Database<S>` handle returned by `Migrator::finish`
(migrate.rs:500-504). -/
structure Database where
  schemaVersion : Int
deriving DecidableEq

/-- Model of `foreign_key_check::<S>` (migrate.rs:523-541): counts the rows
reported by `PRAGMA foreign_key_check` and panics unless the count is zero;
then asserts that the Schema Model declared by `S` equals the Schema Model
read back from the live database.  `true` means both checks passed; `false`
means the function panics. -/
def foreign_key_check (S : SchemaDecl) (st : Store) : Bool :=
  decide (st.fkErrors = 0) && decide (S.schema = st.liveSchema)

/-- Model of `Migrator::migrate` (migrate.rs:434-475).  The whole migration
body is guarded by `user_version(conn) == S::VERSION` (migrate.rs:446).
Inside the guard: the builder effects — temporary-table creation and the
per-row transform (`create_inner`, migrate.rs:206-258), then the drop
statements, then the renames (migrate.rs:457-464) — are modelled as one
state transformer `applyTables`; then `foreign_key_check::<N>`
(migrate.rs:465) runs and only after it passes is the new version stamped
(`set_user_version`, migrate.rs:466).  In both branches a `Migrator<N>` is
returned (migrate.rs:469-474). -/
def Migrator.migrate (S N : SchemaDecl) (applyTables : Store → Store)
    (st : Store) : Option (Migrator × Store) :=
  if st.userVersion = S.VERSION then
    let st1 := applyTables st
    if foreign_key_check N st1 then
      some (⟨N.VERSION⟩, { st1 with userVersion := N.VERSION })
    else none
  else some (⟨N.VERSION⟩, st)

/-- Model of `Migrator::finish` (migrate.rs:479-505): returns `None` when the
stamped version differs from `S::VERSION`; otherwise sets the transaction to
commit and returns an open versioned `Database` handle (carrying the
`schema_version` read from the store). -/
def Migrator.finish (S : SchemaDecl) (st : Store) : Option (Database × Store) :=
  if st.userVersion = S.VERSION then
    some ({ schemaVersion := st.schemaVersion }, st)
  else none

/-- The version checks of `Prepare::migrator` after the freshness step
(migrate.rs:399-413): refuse (`None`) when the stamped version is older than
`S::VERSION`; run `foreign_key_check::<S>` when it is equal (a panic there is
`none`); otherwise hand out the `Migrator<S>` capability. -/
def Prepare.migratorCore (S : SchemaDecl) (st1 : Store) :
    Option (Migrator × Store) :=
  if st1.userVersion < S.VERSION then none
  else if st1.userVersion = S.VERSION then
    if foreign_key_check S st1 then some (⟨S.VERSION⟩, st1) else none
  else some (⟨S.VERSION⟩, st1)

/-- Model of `Prepare::migrator` (migrate.rs:381-413): opens the exclusive
transaction; if the database is newly created (`schema_version(conn) == 0`,
migrate.rs:394) it runs the caller-supplied initialization `init` (for
`create_db_sql`: empty-table creation from the declared schema followed by
the raw SQL statements, migrate.rs:351-365) and stamps `S::VERSION`; then
applies the version checks. -/
def Prepare.migrator (S : SchemaDecl) (init : Store → Store) (st : Store) :
    Option (Migrator × Store) :=
  Prepare.migratorCore S
    (if st.schemaVersion = 0 then { init st with userVersion := S.VERSION } else st)

/-! ### migrate.rs: `Wrapper::prepare` (migrate.rs:144-168)

`Wrapper` adapts a user `TableMigration` to a `TableCreation`: its `prepare`
first caches the `From`-row expression (`cacher.cache(self.1)`, whose value
at each source row is that row's primary-key id), prepares the user
transform, and returns a closure that, per row, first writes the `From`
table's ID column with the value read from the source row and then lets the
user transform write its columns. -/

/-- Cached select expressions are opaque identifiers. -/
abbrev CExpr := Nat

/-- Model of `Cacher::cache`: registers an expression and returns its slot
index in the select (the `Cached` handle used by `Row::get`). -/
def Cacher.cache (cached : List CExpr) (e : CExpr) : Nat × List CExpr :=
  (cached.length, cached ++ [e])

/-- The row handle produced by executing the select for one source row with
valuation `v`: slot `i` holds the value of the `i`-th cached expression. -/
def rowOf (cached : List CExpr) (v : CExpr → Int) : Nat → Int :=
  fun i => v (cached.getD i 0)

/-- Model of `Wrapper::prepare` (migrate.rs:153-168).  `inner` is the user
transform's `prepare`, receiving the `Cached` slot of the `From` row and the
extended cacher, and emitting its `(column name, value)` pairs per row; the
`Reader` is modelled as the emitted list, in emission order. -/
def Wrapper.prepare (FromID : String) (idCol : CExpr)
    (inner : Nat → List CExpr → ((Nat → Int) → List (String × Int)))
    (cached : List CExpr) : (Nat → Int) → List (String × Int) :=
  let dbId := (Cacher.cache cached idCol).1
  let cached1 := (Cacher.cache cached idCol).2
  let prepared := inner dbId cached1
  fun row => (FromID, row dbId) :: prepared row

end Migrate

/-! ## Helper theorems -/

theorem counterAfter_eq (n : Nat) : counterAfter n = n % U64_SIZE := by
  induction n with
  | zero => rfl
  | succ k ih =>
    show (MyAlias.new (counterAfter k)).2 = (k + 1) % U64_SIZE
    rw [ih]
    show (k % U64_SIZE + 1) % U64_SIZE = (k + 1) % U64_SIZE
    exact Nat.mod_add_mod k U64_SIZE 1

theorem aliasAt_eq (n : Nat) : aliasAt n = n % U64_SIZE := by
  rw [aliasAt, MyAlias.new, counterAfter_eq]

namespace Value

theorem derefStep_hit {T : TableInfo} {name : Field}
    {l : List (Field × MyTable)} {c : Nat} {item : Field × MyTable}
    (h : lookupJoin l name = some item) :
    derefStep T name l c = (l, item.2, c) := by
  unfold derefStep
  rw [h]

theorem derefStep_miss {T : TableInfo} {name : Field}
    {l : List (Field × MyTable)} {c : Nat}
    (h : lookupJoin l name = none) :
    derefStep T name l c =
      (l ++ [(name, MyTable.mk T.NAME T.ID (MyAlias.new c).1 [])],
       MyTable.mk T.NAME T.ID (MyAlias.new c).1 [],
       (MyAlias.new c).2) := by
  unfold derefStep
  rw [h]

theorem lookupJoin_append_self {name : Field}
    {l : List (Field × MyTable)} (t : MyTable)
    (h : lookupJoin l name = none) :
    lookupJoin (l ++ [(name, t)]) name = some (name, t) := by
  induction l with
  | nil => simp [lookupJoin, List.find?]
  | cons x xs ih =>
    rw [lookupJoin, List.cons_append, List.find?]
    rw [lookupJoin, List.find?] at h
    rcases hx : decide (x.1 = name) with _ | _
    · rw [hx] at h
      exact ih h
    · rw [hx] at h
      exact absurd h (by simp)

theorem derefN_hit {T : TableInfo} {name : Field}
    {l : List (Field × MyTable)} {c : Nat} {item : Field × MyTable}
    (h : lookupJoin l name = some item) (n : Nat) :
    derefN T name n (l, c) = (l, c) ∧
    derefResults T name n (l, c) = List.replicate n item.2 := by
  induction n with
  | zero => exact ⟨rfl, rfl⟩
  | succ k ih =>
    have hs : derefStep T name l c = (l, item.2, c) := derefStep_hit h
    refine ⟨?_, ?_⟩
    · show derefN T name k ((derefStep T name l c).1, (derefStep T name l c).2.2) = (l, c)
      rw [hs]
      exact ih.1
    · show (derefStep T name l c).2.1 ::
        derefResults T name k ((derefStep T name l c).1, (derefStep T name l c).2.2) =
        List.replicate (k + 1) item.2
      rw [hs, List.replicate_succ]
      exact congrArg _ ih.2

end Value

theorem u64_eq : U64_SIZE = 18446744073709551616 := by norm_num [U64_SIZE]

theorem u64_pos : 0 < U64_SIZE := by norm_num [U64_SIZE]

theorem mod_add_mod_u64 (a b : Nat) :
    (a % U64_SIZE + b) % U64_SIZE = (a + b) % U64_SIZE :=
  Nat.mod_add_mod a U64_SIZE b

theorem window_length (c k : Nat) : (window c k).length = k := by
  simp [window]

theorem window_succ (c k : Nat) (hc : c < U64_SIZE) :
    window c (k + 1) = c :: window ((c + 1) % U64_SIZE) k := by
  unfold window
  rw [List.range_succ_eq_map, List.map_cons, List.map_map]
  congr 1
  · simpa using Nat.mod_eq_of_lt hc
  · apply List.map_congr_left
    intro i _
    show (c + (i + 1)) % U64_SIZE = ((c + 1) % U64_SIZE + i) % U64_SIZE
    rw [mod_add_mod_u64]
    congr 1
    omega

theorem window_append (c j k : Nat) :
    window c (j + k) = window c j ++ window ((c + j) % U64_SIZE) k := by
  unfold window
  rw [List.range_add, List.map_append, List.map_map]
  congr 1
  apply List.map_congr_left
  intro i _
  show (c + (j + i)) % U64_SIZE = ((c + j) % U64_SIZE + i) % U64_SIZE
  rw [mod_add_mod_u64]
  congr 1
  omega

theorem window_nodup (c k : Nat) (hk : k ≤ U64_SIZE) : (window c k).Nodup := by
  unfold window
  refine List.Nodup.map_on ?_ (List.nodup_range k)
  intro i hi j hj hf
  rw [List.mem_range] at hi hj
  rw [u64_eq] at hf
  rw [u64_eq] at hk
  omega

/-- Every alias allocated while compiling a plan comes from the threaded
counter: the allocation trace of `into_select` (and of the sources loop) is
exactly a window of consecutive counter values, and the counter ends at the
start plus the number of allocations, modulo 2^64. -/
theorem allocTrace (n : Nat) :
    (∀ (q : Ast.MySelect) (c : Nat), sizeOf q ≤ n → c < U64_SIZE →
      ∃ k, (q.into_select c).2.2 = window c k ∧
        (q.into_select c).2.1 = (c + k) % U64_SIZE) ∧
    (∀ (ss : List Ast.Source) (c : Nat), sizeOf ss ≤ n → c < U64_SIZE →
      ∃ k, (Ast.intoSources ss c).2.2.2 = window c k ∧
        (Ast.intoSources ss c).2.2.1 = (c + k) % U64_SIZE) := by
  induction n with
  | zero =>
    constructor
    · intro q c hq hc
      exact absurd hq (by cases q with | mk s f g a so =>
        simp only [Ast.MySelect.mk.sizeOf_spec]; omega)
    · intro ss c hss hc
      cases ss with
      | nil =>
        refine ⟨0, by simp [Ast.intoSources, window], ?_⟩
        simp [Ast.intoSources, Nat.mod_eq_of_lt hc]
      | cons s rest =>
        exact absurd hss (by cases s <;> simp)
  | succ m ih =>
    obtain ⟨ihSel, ihSrc⟩ := ih
    constructor
    · intro q c hq hc
      cases q with
      | mk sources filters group aggr sort =>
        have hsz : sizeOf sources ≤ m := by
          simp only [Ast.MySelect.mk.sizeOf_spec] at hq; omega
        obtain ⟨k, h1, h2⟩ := ihSrc sources c hsz hc
        exact ⟨k, by simpa [Ast.MySelect.into_select] using h1,
          by simpa [Ast.MySelect.into_select] using h2⟩
    · intro ss c hss hc
      cases ss with
      | nil =>
        refine ⟨0, by simp [Ast.intoSources, window], ?_⟩
        simp [Ast.intoSources, Nat.mod_eq_of_lt hc]
      | cons s rest =>
        cases s with
        | table t =>
          have hsz : sizeOf rest ≤ m := by
            simp only [List.cons.sizeOf_spec] at hss; omega
          obtain ⟨k, h1, h2⟩ := ihSrc rest ((c + 1) % U64_SIZE) hsz
            (Nat.mod_lt _ u64_pos)
          refine ⟨k + 1, ?_, ?_⟩
          · show c :: (Ast.intoSources rest ((c + 1) % U64_SIZE)).2.2.2 = _
            rw [h1, window_succ _ _ hc]
          · show (Ast.intoSources rest ((c + 1) % U64_SIZE)).2.2.1 = _
            rw [h2, mod_add_mod_u64]
            congr 1
            omega
        | select s' =>
          have hszq : sizeOf s' ≤ m := by
            simp only [List.cons.sizeOf_spec, Ast.Source.select.sizeOf_spec] at hss
            omega
          have hszr : sizeOf rest ≤ m := by
            simp only [List.cons.sizeOf_spec] at hss; omega
          obtain ⟨k0, hs1, hs2⟩ := ihSel s' c hszq hc
          obtain ⟨k1, hr1, hr2⟩ := ihSrc rest
            (((s'.into_select c).2.1 + 1) % U64_SIZE) hszr (Nat.mod_lt _ u64_pos)
          refine ⟨k0 + (k1 + 1), ?_, ?_⟩
          · show (s'.into_select c).2.2 ++ (s'.into_select c).2.1 ::
              (Ast.intoSources rest (((s'.into_select c).2.1 + 1) % U64_SIZE)).2.2.2 = _
            rw [hs1, hr1, hs2, window_append, window_succ _ _ (Nat.mod_lt _ u64_pos)]
          · show (Ast.intoSources rest
              (((s'.into_select c).2.1 + 1) % U64_SIZE)).2.2.1 = _
            rw [hr2, hs2, u64_eq]
            omega

/-- The sources loop of into_select satisfies the spec-side description of
compilation steps (a)-(b) of §4.1. -/
theorem intoSources_spec (ss : List Ast.Source) (c : Nat) :
    Ast.SourcesSpec ss c (Ast.intoSources ss c).1 (Ast.intoSources ss c).2.1
      (Ast.intoSources ss c).2.2.1 := by
  induction ss generalizing c with
  | nil => exact Ast.SourcesSpec.nil c
  | cons s rest ih =>
    cases s with
    | table t => exact Ast.SourcesSpec.table t rest c (ih _)
    | select s' => exact Ast.SourcesSpec.nested s' rest c (ih _)

namespace Migrate

theorem getD_append_length (l : List CExpr) (x d : CExpr) :
    (l ++ [x]).getD l.length d = x := by
  induction l with
  | nil => rfl
  | cons a as ih => simp [ih]

end Migrate

/-! ## Claim theorems (C1, C9, C10) -/

/-- Claim C1: within one plan, any sequence of N ≥ 1 dereferences of the same
foreign-key field adds exactly one entry to the plan's join list: the first
resolution appends a new joined-table entry (with a fresh alias and empty
nested join list) and memoizes it, and every later resolution returns that
same memoized entry without appending a new one. -/
theorem c1_deref_adds_exactly_one_join (T : Value.TableInfo) (name : Value.Field)
    (joined : List (Value.Field × Value.MyTable)) (ctr n : Nat)
    (hmiss : Value.lookupJoin joined name = none) :
    (Value.derefN T name (n + 1) (joined, ctr)).1.length = joined.length + 1 ∧
    (Value.derefN T name (n + 1) (joined, ctr)).1 =
      joined ++ [(name, Value.firstTable T name joined ctr)] ∧
    Value.derefResults T name (n + 1) (joined, ctr) =
      List.replicate (n + 1) (Value.firstTable T name joined ctr) := by
  have hs := Value.derefStep_miss (T := T) (c := ctr) hmiss
  have hft : Value.firstTable T name joined ctr =
      Value.MyTable.mk T.NAME T.ID (MyAlias.new ctr).1 [] := by
    rw [Value.firstTable, hs]
  have hhit : Value.lookupJoin
      (joined ++ [(name, Value.MyTable.mk T.NAME T.ID (MyAlias.new ctr).1 [])]) name =
      some (name, Value.MyTable.mk T.NAME T.ID (MyAlias.new ctr).1 []) :=
    Value.lookupJoin_append_self _ hmiss
  have hfix := Value.derefN_hit (T := T) (c := (MyAlias.new ctr).2) hhit n
  have h1 : Value.derefN T name (n + 1) (joined, ctr) =
      (joined ++ [(name, Value.MyTable.mk T.NAME T.ID (MyAlias.new ctr).1 [])],
       (MyAlias.new ctr).2) := by
    show Value.derefN T name n
      ((Value.derefStep T name joined ctr).1, (Value.derefStep T name joined ctr).2.2) = _
    rw [hs]
    exact hfix.1
  have h2 : Value.derefResults T name (n + 1) (joined, ctr) =
      Value.MyTable.mk T.NAME T.ID (MyAlias.new ctr).1 [] ::
      List.replicate n (Value.MyTable.mk T.NAME T.ID (MyAlias.new ctr).1 []) := by
    show (Value.derefStep T name joined ctr).2.1 ::
      Value.derefResults T name n
        ((Value.derefStep T name joined ctr).1, (Value.derefStep T name joined ctr).2.2) = _
    rw [hs]
    exact congrArg _ hfix.2
  refine ⟨?_, ?_, ?_⟩
  · rw [h1]
    simp
  · rw [h1, hft]
  · rw [h2, hft, List.replicate_succ]

/-- Witness for C1 at a concrete input: an empty join list, the field
`Str("author")`, table constants ("author", "id"), and three dereferences. -/
theorem c1_witness :
    Value.lookupJoin [] (Value.Field.str "author") = none ∧
    ((Value.derefN ⟨"author", "id"⟩ (Value.Field.str "author") (2 + 1) ([], 0)).1.length =
      0 + 1 ∧
    (Value.derefN ⟨"author", "id"⟩ (Value.Field.str "author") (2 + 1) ([], 0)).1 =
      [] ++ [(Value.Field.str "author",
        Value.firstTable ⟨"author", "id"⟩ (Value.Field.str "author") [] 0)] ∧
    Value.derefResults ⟨"author", "id"⟩ (Value.Field.str "author") (2 + 1) ([], 0) =
      List.replicate (2 + 1)
        (Value.firstTable ⟨"author", "id"⟩ (Value.Field.str "author") [] 0)) :=
  ⟨rfl, c1_deref_adds_exactly_one_join ⟨"author", "id"⟩ (Value.Field.str "author") [] 0 2 rfl⟩

/-- Claim C9 (counterexample): the claim says `Value::eq` requires both
operands' semantic type tags to match at construction time.  It is false:
the bound on `Value::eq` (value.rs:27-29) is only `T: Value<'t>`, so an
equality of an i64-tagged constant and a String-tagged constant passes every
construction-time check even though the tags differ. -/
theorem c9_counterexample :
    (ExprNode.myEq (.const .i64) (.const .str)).wf = true ∧
    (ExprNode.const .i64).typ ≠ (ExprNode.const .str).typ := by
  exact ⟨rfl, by decide⟩

/-- Claim C9 (amended): combining two well-formed expression nodes with
`Value::eq` always succeeds at construction time regardless of the operands'
semantic type tags (the only bound is that both operands are values,
value.rs:27-29), and the resulting `MyEq` node's type tag is bool
(value.rs:96-101). -/
theorem c9_eq_unchecked_tags (a b : ExprNode)
    (ha : a.wf = true) (hb : b.wf = true) :
    (ExprNode.myEq a b).wf = true ∧ (ExprNode.myEq a b).typ = Ty.boolean := by
  refine ⟨?_, rfl⟩
  show (a.wf && b.wf) = true
  rw [ha, hb]
  rfl

/-- Witness for C9 (amended) at concrete operands with distinct type tags:
a bool-tagged column and a String-tagged constant. -/
theorem c9_witness :
    (ExprNode.db 0 "title" .boolean).wf = true ∧
    (ExprNode.const .str).wf = true ∧
    ((ExprNode.myEq (ExprNode.db 0 "title" .boolean) (ExprNode.const .str)).wf = true ∧
     (ExprNode.myEq (ExprNode.db 0 "title" .boolean) (ExprNode.const .str)).typ =
       Ty.boolean) :=
  ⟨rfl, rfl, c9_eq_unchecked_tags (ExprNode.db 0 "title" .boolean) (ExprNode.const .str) rfl rfl⟩


/-! ## Claim theorems (C3, C4, C5, C7, C8) -/

/-- Claim C3: calling `migrate` on a `Migrator<S>` when the store's stamped
version differs from `S::VERSION` executes none of the migration — the
result does not depend on the builder effects `applyTables` (no table
creation, no transform, no drop, no rename, no re-stamping), the store is
returned unchanged, and a valid `Migrator<N>` capability is still
returned. -/
theorem c3_migrate_gated_noop (S N : Migrate.SchemaDecl)
    (applyTables : Migrate.Store → Migrate.Store) (st : Migrate.Store)
    (h : st.userVersion ≠ S.VERSION) :
    Migrate.Migrator.migrate S N applyTables st = some (⟨N.VERSION⟩, st) := by
  unfold Migrate.Migrator.migrate
  rw [if_neg h]

/-- Witness for C3 at a concrete input: expected version 1, store stamped at
version 2, with builder effects that would corrupt the store if executed. -/
theorem c3_witness :
    ((⟨2, 5, 0, ⟨[]⟩, [("book", [[1]])]⟩ : Migrate.Store).userVersion ≠
      (⟨1, ⟨[]⟩⟩ : Migrate.SchemaDecl).VERSION) ∧
    Migrate.Migrator.migrate ⟨1, ⟨[]⟩⟩ ⟨2, ⟨[]⟩⟩
      (fun s => { s with fkErrors := 7, tables := [] })
      ⟨2, 5, 0, ⟨[]⟩, [("book", [[1]])]⟩ =
      some (⟨(⟨2, ⟨[]⟩⟩ : Migrate.SchemaDecl).VERSION⟩, ⟨2, 5, 0, ⟨[]⟩, [("book", [[1]])]⟩) :=
  ⟨by decide,
   c3_migrate_gated_noop ⟨1, ⟨[]⟩⟩ ⟨2, ⟨[]⟩⟩
     (fun s => { s with fkErrors := 7, tables := [] })
     ⟨2, 5, 0, ⟨[]⟩, [("book", [[1]])]⟩ (by decide)⟩

/-- Claim C4: when a migration step takes effect (the version gate holds),
the outcome is decided by the two checks run after the builder effects and
before stamping: the step commits the effected store re-stamped to
`N::VERSION` exactly when the foreign-key check reports zero violations and
the declared Schema Model of `N` equals the live Schema Model; if either
check fails the step panics (`none`) and the new version is never stamped —
no partial migration is committed. -/
theorem c4_checks_guard_stamping (S N : Migrate.SchemaDecl)
    (applyTables : Migrate.Store → Migrate.Store) (st : Migrate.Store)
    (hgate : st.userVersion = S.VERSION) :
    Migrate.Migrator.migrate S N applyTables st =
      if (applyTables st).fkErrors = 0 ∧ N.schema = (applyTables st).liveSchema
      then some (⟨N.VERSION⟩, { applyTables st with userVersion := N.VERSION })
      else none := by
  unfold Migrate.Migrator.migrate
  rw [if_pos hgate]
  show (if Migrate.foreign_key_check N (applyTables st) = true
      then some ((⟨N.VERSION⟩ : Migrate.Migrator),
        { applyTables st with userVersion := N.VERSION })
      else none) = _
  by_cases hc : (applyTables st).fkErrors = 0 ∧ N.schema = (applyTables st).liveSchema
  · rw [if_pos (show Migrate.foreign_key_check N (applyTables st) = true by
      simp [Migrate.foreign_key_check, hc.1, hc.2]), if_pos hc]
  · rw [if_neg (show ¬Migrate.foreign_key_check N (applyTables st) = true by
      simp only [Migrate.foreign_key_check, Bool.and_eq_true, decide_eq_true_eq]
      exact fun h => hc ⟨h.1, h.2⟩), if_neg hc]

/-- Witness for C4 at a concrete input: version gate holds (stamped 1 = S),
the builder effects leave one foreign-key violation, so the step must panic
without stamping version 2. -/
theorem c4_witness :
    ((⟨1, 5, 0, ⟨[]⟩, []⟩ : Migrate.Store).userVersion =
      (⟨1, ⟨[]⟩⟩ : Migrate.SchemaDecl).VERSION) ∧
    Migrate.Migrator.migrate ⟨1, ⟨[]⟩⟩ ⟨2, ⟨[]⟩⟩
      (fun s => { s with fkErrors := 1 }) ⟨1, 5, 0, ⟨[]⟩, []⟩ =
      (if ((fun s : Migrate.Store => { s with fkErrors := 1 }) ⟨1, 5, 0, ⟨[]⟩, []⟩).fkErrors = 0 ∧
          (⟨2, ⟨[]⟩⟩ : Migrate.SchemaDecl).schema =
            ((fun s : Migrate.Store => { s with fkErrors := 1 }) ⟨1, 5, 0, ⟨[]⟩, []⟩).liveSchema
       then some (⟨(⟨2, ⟨[]⟩⟩ : Migrate.SchemaDecl).VERSION⟩,
         { (fun s : Migrate.Store => { s with fkErrors := 1 }) ⟨1, 5, 0, ⟨[]⟩, []⟩ with
             userVersion := (⟨2, ⟨[]⟩⟩ : Migrate.SchemaDecl).VERSION })
       else none) :=
  ⟨by decide,
   c4_checks_guard_stamping ⟨1, ⟨[]⟩⟩ ⟨2, ⟨[]⟩⟩
     (fun s => { s with fkErrors := 1 }) ⟨1, 5, 0, ⟨[]⟩, []⟩ (by decide)⟩

/-- Claim C5: for every alter-table migration, the row writer produced by
`Wrapper::prepare` emits, for every source row, the `From` table's ID column
with the value the source row gives to the cached `From`-row id expression —
emitted before any of the user transform's columns — so the written row
carries exactly the old row's primary-key id and ids are never reassigned. -/
theorem c5_row_ids_preserved (FromID : String) (idCol : Migrate.CExpr)
    (inner : Nat → List Migrate.CExpr → ((Nat → Int) → List (String × Int)))
    (cached : List Migrate.CExpr) (v : Migrate.CExpr → Int) :
    Migrate.Wrapper.prepare FromID idCol inner cached
        (Migrate.rowOf (Migrate.Cacher.cache cached idCol).2 v) =
      (FromID, v idCol) ::
        inner (Migrate.Cacher.cache cached idCol).1
          (Migrate.Cacher.cache cached idCol).2
          (Migrate.rowOf (Migrate.Cacher.cache cached idCol).2 v) := by
  have h : Migrate.rowOf (Migrate.Cacher.cache cached idCol).2 v
      (Migrate.Cacher.cache cached idCol).1 = v idCol := by
    show v ((cached ++ [idCol]).getD cached.length 0) = v idCol
    rw [Migrate.getD_append_length]
  show (FromID, Migrate.rowOf (Migrate.Cacher.cache cached idCol).2 v
      (Migrate.Cacher.cache cached idCol).1) :: _ = _
  rw [h]

/-- Claim C7: `finish` on a `Migrator<S>` produces a database handle exactly
when the store's stamped version equals `S::VERSION`; on success the
transaction is committed and an open versioned handle is returned, and on a
version mismatch no handle is produced. -/
theorem c7_finish_iff_version (S : Migrate.SchemaDecl) (st : Migrate.Store) :
    ((Migrate.Migrator.finish S st).isSome ↔ st.userVersion = S.VERSION) ∧
    (st.userVersion = S.VERSION →
      Migrate.Migrator.finish S st = some (⟨st.schemaVersion⟩, st)) := by
  constructor
  · unfold Migrate.Migrator.finish
    by_cases h : st.userVersion = S.VERSION
    · rw [if_pos h]
      simp [h]
    · rw [if_neg h]
      simp [h]
  · intro h
    unfold Migrate.Migrator.finish
    rw [if_pos h]

/-- Witness for C7 at a concrete input: store stamped at the expected
version 3; `finish` commits and returns the handle. -/
theorem c7_witness :
    Migrate.Migrator.finish ⟨3, ⟨[]⟩⟩ ⟨3, 9, 0, ⟨[]⟩, []⟩ =
      some (⟨(⟨3, 9, 0, ⟨[]⟩, []⟩ : Migrate.Store).schemaVersion⟩, ⟨3, 9, 0, ⟨[]⟩, []⟩) :=
  (c7_finish_iff_version ⟨3, ⟨[]⟩⟩ ⟨3, 9, 0, ⟨[]⟩, []⟩).2 (by decide)

/-- Claim C8: opening a store with expected starting schema `S`: when the
store is newly created (no DDL has ever run, the code's "no stamped version"
test `schema_version == 0`, migrate.rs:394) the caller-supplied
initialization is run and the version is stamped to `S::VERSION` — the
result is exactly the initialized, stamped store (gated only by the
immediate verification that may panic); and when the store is not fresh and
its stamped version is older than `S::VERSION`, no capability is produced. -/
theorem c8_open_init_and_refusal (S : Migrate.SchemaDecl)
    (init : Migrate.Store → Migrate.Store) (st : Migrate.Store) :
    (st.schemaVersion = 0 →
      Migrate.Prepare.migrator S init st =
        (if Migrate.foreign_key_check S { init st with userVersion := S.VERSION }
         then some (⟨S.VERSION⟩, { init st with userVersion := S.VERSION })
         else none)) ∧
    (st.schemaVersion ≠ 0 → st.userVersion < S.VERSION →
      Migrate.Prepare.migrator S init st = none) := by
  constructor
  · intro h
    unfold Migrate.Prepare.migrator
    rw [if_pos h]
    unfold Migrate.Prepare.migratorCore
    rw [if_neg (by simp), if_pos (by simp)]
  · intro h hlt
    unfold Migrate.Prepare.migrator
    rw [if_neg h]
    unfold Migrate.Prepare.migratorCore
    rw [if_pos hlt]

/-- Witness for C8 at concrete inputs: a fresh store (schema_version 0) is
initialized and stamped to version 0; a non-fresh store stamped at version 1
is refused when the expected starting version is 2. -/
theorem c8_witness :
    (Migrate.Prepare.migrator ⟨0, ⟨[]⟩⟩ (fun s => s) ⟨0, 0, 0, ⟨[]⟩, []⟩ =
      (if Migrate.foreign_key_check ⟨0, ⟨[]⟩⟩
          { (fun s : Migrate.Store => s) ⟨0, 0, 0, ⟨[]⟩, []⟩ with
              userVersion := (⟨0, ⟨[]⟩⟩ : Migrate.SchemaDecl).VERSION }
       then some (⟨(⟨0, ⟨[]⟩⟩ : Migrate.SchemaDecl).VERSION⟩,
         { (fun s : Migrate.Store => s) ⟨0, 0, 0, ⟨[]⟩, []⟩ with
             userVersion := (⟨0, ⟨[]⟩⟩ : Migrate.SchemaDecl).VERSION })
       else none)) ∧
    Migrate.Prepare.migrator ⟨2, ⟨[]⟩⟩ (fun s => s) ⟨1, 4, 0, ⟨[]⟩, []⟩ = none :=
  ⟨(c8_open_init_and_refusal ⟨0, ⟨[]⟩⟩ (fun s => s) ⟨0, 0, 0, ⟨[]⟩, []⟩).1 (by decide),
   (c8_open_init_and_refusal ⟨2, ⟨[]⟩⟩ (fun s => s) ⟨1, 4, 0, ⟨[]⟩, []⟩).2 (by decide) (by decide)⟩

/-- Claim C10: opening a store is permitted at most once per process.  The
first call to `open_internal` finds the `ALLOWED` flag in its initial state,
clears it, and returns a `Prepare` value; any later call in the same process
finds the flag cleared and fails the assertion (panics, modelled as `none`)
instead of returning a `Prepare` value. -/
theorem c10_open_at_most_once (m₁ m₂ : Manager) :
    Prepare.open_internal m₁ ALLOWED_init = some (m₁, false) ∧
    Prepare.open_internal m₂ false = none :=
  ⟨rfl, rfl⟩

/-- Claim C6: compiling a Select Plan performs exactly the steps of §4.1:
(a)-(b) the sources are compiled as related by `SourcesSpec` — each Table
source becomes an inner join under a fresh alias with its referenced columns
projected under their generated aliases, and each nested-plan source is
recursively compiled and joined as a lateral inner join whose condition
(the empty any-condition) is always true; (c) the filters are the ANDed
WHERE conjuncts; (d) each grouping key is projected, added to GROUP BY and
to ORDER BY ascending; (e) each aggregate is projected; (f) each sort key is
projected and added to ORDER BY ascending. -/
theorem c6_compile_steps (sources : List Ast.Source)
    (filters : List Ast.SimpleExpr)
    (group aggr sort : List (Nat × Ast.SimpleExpr)) (ctr : Nat) :
    ((Ast.MySelect.mk sources filters group aggr sort).into_select ctr).1 =
      Ast.SelectStatement.mk (Ast.intoSources sources ctr).1
        ((Ast.intoSources sources ctr).2.1
          ++ group.map (fun p => (Ast.PExpr.expr p.2, p.1))
          ++ aggr.map (fun p => (Ast.PExpr.expr p.2, p.1))
          ++ sort.map (fun p => (Ast.PExpr.expr p.2, p.1)))
        filters
        (group.map (fun p => p.1))
        (group.map (fun p => (p.1, Ast.Order.asc))
          ++ sort.map (fun p => (p.1, Ast.Order.asc))) ∧
    Ast.SourcesSpec sources ctr (Ast.intoSources sources ctr).1
      (Ast.intoSources sources ctr).2.1 (Ast.intoSources sources ctr).2.2.1 ∧
    (∀ env : Ast.SimpleExpr → Bool, Ast.Cond.eval env (Ast.Cond.any []) = true) :=
  ⟨rfl, intoSources_spec sources ctr, fun _ => rfl⟩

/-- Claim C2 (counterexample): the claim says every call to `MyAlias::new`
returns a value distinct from every value returned by any previous call in
the same process.  The counter is an `AtomicU64` and `fetch_add` wraps on
overflow, so the 2^64-th call (a later call than the 0th) returns the same
alias value as the 0th call. -/
theorem c2_alias_wraps_counterexample :
    aliasAt U64_SIZE = aliasAt 0 ∧ U64_SIZE ≠ 0 := by
  constructor
  · rw [aliasAt_eq, aliasAt_eq, Nat.mod_self, Nat.zero_mod]
  · norm_num [U64_SIZE]

/-- Claim C2 (amended): a call to `MyAlias::new` returns a value distinct
from every one of the previous 2^64 - 1 calls; consequently, for every plan
whose compilation allocates at most 2^64 table/lateral aliases (one per
Table/NestedPlan source, including sources of nested plans), the allocated
aliases are pairwise distinct, so no two aliases within one compiled
statement compare equal. -/
theorem c2_alias_distinct_amended :
    (∀ i j : Nat, i < j → j - i < U64_SIZE → aliasAt i ≠ aliasAt j) ∧
    (∀ (q : Ast.MySelect) (c : Nat), c < U64_SIZE →
      (q.into_select c).2.2.length ≤ U64_SIZE → (q.into_select c).2.2.Nodup) := by
  constructor
  · intro i j hij hspan
    rw [aliasAt_eq, aliasAt_eq, u64_eq]
    rw [u64_eq] at hspan
    omega
  · intro q c hc hlen
    obtain ⟨k, hw, _⟩ := (allocTrace (sizeOf q)).1 q c le_rfl hc
    rw [hw] at hlen ⊢
    rw [window_length] at hlen
    exact window_nodup c k hlen

/-- Witness for C2 (amended) at concrete inputs: calls 0 and 1 of the
allocator return distinct aliases, and the aliases allocated while compiling
a concrete two-source plan (a table and a nested plan over another table)
are pairwise distinct. -/
theorem c2_amended_witness :
    aliasAt 0 ≠ aliasAt 1 ∧
    ((Ast.MySelect.mk
      [Ast.Source.table ⟨"book", [("title", 100)]⟩,
       Ast.Source.select (Ast.MySelect.mk [Ast.Source.table ⟨"track", []⟩] [] [] [] [])]
      [] [] [] []).into_select 0).2.2.Nodup :=
  ⟨c2_alias_distinct_amended.1 0 1 (by norm_num) (by rw [u64_eq]; norm_num),
   c2_alias_distinct_amended.2
     (Ast.MySelect.mk
       [Ast.Source.table ⟨"book", [("title", 100)]⟩,
        Ast.Source.select (Ast.MySelect.mk [Ast.Source.table ⟨"track", []⟩] [] [] [] [])]
       [] [] [] [])
     0 (by rw [u64_eq]; norm_num)
     (by rw [u64_eq]; norm_num [Ast.MySelect.into_select, Ast.intoSources, MyAlias.new, U64_SIZE])⟩

end RustQuery
